import Mathlib

/-!
Verification of the locomotion-control model (`proj/model/model.py`,
`proj/environment/environment.py`, `proj/utils.py`).

Numeric scalars are modelled as `EF := Option ℚ`: `some q` is a finite
float value (exact-real semantics), `none` is a non-finite value (NaN or
±Inf, which the code only ever tests for jointly via
`np.any(np.isnan(v)) or np.any(np.isinf(v))`).  Arithmetic on finite
values is exact rational arithmetic; any operation touching a non-finite
operand yields a non-finite result, matching IEEE propagation at the
granularity the code observes.
-/

/-- A float value: `some q` finite, `none` non-finite (NaN/Inf). -/
def EF : Type := Option ℚ
deriving DecidableEq, Inhabited

namespace EF

/-- Addition; non-finite operands propagate. -/
def add : EF → EF → EF
  | some a, some b => some (a + b)
  | _, _ => none

/-- Multiplication; non-finite operands propagate. -/
def mul : EF → EF → EF
  | some a, some b => some (a * b)
  | _, _ => none

/-- Multiplication by a finite constant (e.g. `dxdt * dt`). -/
def scale (q : ℚ) : EF → EF
  | some a => some (q * a)
  | none => none

/-- Division by a finite constant parameter. -/
def divC (q : ℚ) : EF → EF
  | some a => some (a / q)
  | none => none

/-- Negation. -/
def neg : EF → EF
  | some a => some (-a)
  | none => none

/-- Application of a numeric routine such as `np.cos` (NaN in, NaN out). -/
def liftFn (f : ℚ → ℚ) : EF → EF
  | some a => some (f a)
  | none => none

/-- `true` iff the value is finite (neither NaN nor Inf). -/
def finite : EF → Bool
  | some _ => true
  | none => false

end EF

/-- The state namedtuple `state(x, y, theta, v, omega)` of `Model`. -/
structure SState where
  x : EF
  y : EF
  theta : EF
  v : EF
  omega : EF
deriving DecidableEq, Inhabited

/-- The control namedtuple `control(tau_r, tau_l)` of `Model`. -/
structure Ctrl where
  tau_r : EF
  tau_l : EF
deriving DecidableEq, Inhabited

/-- The derivative namedtuple `dxdt(x_dot, y_dot, theta_dot, v_dot, omega_dot)`. -/
structure Dxdt where
  x_dot : EF
  y_dot : EF
  theta_dot : EF
  v_dot : EF
  omega_dot : EF
deriving DecidableEq, Inhabited

/-- The wheel-state namedtuple `wheel_state(nudot_right, nudot_left)`. -/
structure WheelState where
  nudot_right : EF
  nudot_left : EF
deriving DecidableEq, Inhabited

/-- The goal namedtuple `state(goal_x, goal_y, goal_theta, goal_v, goal_omega)`. -/
structure Goal where
  goal_x : EF
  goal_y : EF
  goal_theta : EF
  goal_v : EF
  goal_omega : EF
deriving DecidableEq, Inhabited

/-- All five state components are finite. -/
def stateFinite (s : SState) : Bool :=
  s.x.finite && s.y.finite && s.theta.finite && s.v.finite && s.omega.finite

/-- All five derivative components are finite: the negation of the check
`np.any(np.isnan(dxdt)) or np.any(np.isinf(dxdt))` at `model.py:338` / `:357`. -/
def dxdtFinite (d : Dxdt) : Bool :=
  d.x_dot.finite && d.y_dot.finite && d.theta_dot.finite &&
    d.v_dot.finite && d.omega_dot.finite

/-- Both control components are finite. -/
def ctrlFinite (u : Ctrl) : Bool :=
  u.tau_r.finite && u.tau_l.finite

/-- The type of the vectorized derivative routine `self.calc_dqdt`
(a lambdified sympy expression / compiled numeric kernel). -/
def DqdtFn : Type := SState → Ctrl → Dxdt

/-- One forward-Euler update `next_x = np.array(x) + dxdt * self.dt`
(`model.py:342` and `model.py:362`). -/
def eulerStep (dt : ℚ) (x : SState) (d : Dxdt) : SState where
  x := x.x.add (d.x_dot.scale dt)
  y := x.y.add (d.y_dot.scale dt)
  theta := x.theta.add (d.theta_dot.scale dt)
  v := x.v.add (d.v_dot.scale dt)
  omega := x.omega.add (d.omega_dot.scale dt)

/-- `Model._fake_step` (`model.py:345-363`): computes `dxdt` and returns the
Euler update.  The non-finiteness check at `model.py:357-359` only prints a
warning (the `raise` is commented out), so it has no semantic effect and the
returned state is the Euler update unconditionally. -/
def fake_step (calc_dqdt : DqdtFn) (dt : ℚ) (x : SState) (u : Ctrl) : SState :=
  eulerStep dt x (calc_dqdt x u)

/-- `Model.predict_trajectory` (`model.py:365-393`), unbatched branch
(`us.ndim == 2`): starting from `curr_x`, repeatedly `_fake_step` through the
control sequence, collecting `curr_x` followed by every intermediate state. -/
def predict_trajectory (calc_dqdt : DqdtFn) (dt : ℚ) (curr_x : SState) :
    List Ctrl → List SState
  | [] => [curr_x]
  | u :: rest =>
      curr_x :: predict_trajectory calc_dqdt dt (fake_step calc_dqdt dt curr_x u) rest

/-! ## The model object: persistent state, history, `step` -/

/-- The `history` dict created by `Model.reset` (`model.py:83-102`):
one list per logged key. -/
structure History where
  x : List EF
  y : List EF
  theta : List EF
  v : List EF
  omega : List EF
  goal_x : List EF
  goal_y : List EF
  goal_theta : List EF
  goal_v : List EF
  goal_omega : List EF
  tau_r : List EF
  tau_l : List EF
  r : List EF
  gamma : List EF
  trajectory_idx : List Int
  nudot_left : List EF
  nudot_right : List EF
deriving DecidableEq, Inhabited

/-- The persistent attributes of a `Model` instance that `step`,
`_append_history` and `predict_trajectory` read or write. -/
structure ModelState where
  curr_x : SState
  curr_goal : Goal
  curr_control : Ctrl
  curr_wheel_state : WheelState
  curr_dxdt : Dxdt
  curr_traj_waypoint_idx : Int
  history : History
deriving DecidableEq, Inhabited

/-- `Model._append_history` (`model.py:104-116`): appends the components of
`curr_x`, `curr_control`, `curr_wheel_state` and `curr_goal` to the
corresponding history lists, plus `curr_traj_waypoint_idx` to
`trajectory_idx`.  The `r` and `gamma` lists are not touched here. -/
def append_history (m : ModelState) : History :=
  { m.history with
    x := m.history.x ++ [m.curr_x.x]
    y := m.history.y ++ [m.curr_x.y]
    theta := m.history.theta ++ [m.curr_x.theta]
    v := m.history.v ++ [m.curr_x.v]
    omega := m.history.omega ++ [m.curr_x.omega]
    tau_r := m.history.tau_r ++ [m.curr_control.tau_r]
    tau_l := m.history.tau_l ++ [m.curr_control.tau_l]
    nudot_right := m.history.nudot_right ++ [m.curr_wheel_state.nudot_right]
    nudot_left := m.history.nudot_left ++ [m.curr_wheel_state.nudot_left]
    goal_x := m.history.goal_x ++ [m.curr_goal.goal_x]
    goal_y := m.history.goal_y ++ [m.curr_goal.goal_y]
    goal_theta := m.history.goal_theta ++ [m.curr_goal.goal_theta]
    goal_v := m.history.goal_v ++ [m.curr_goal.goal_v]
    goal_omega := m.history.goal_omega ++ [m.curr_goal.goal_omega]
    trajectory_idx := m.history.trajectory_idx ++ [m.curr_traj_waypoint_idx] }

/-- The type of the vectorized wheel-acceleration routine
`self.calc_wheels_accels` (`model.py:273-309`, the lambdified
`K.pinv() * Q * vels`); its values do not matter for any claim, so the
routine is kept as a parameter, applied to the current state. -/
def WheelsFn : Type := SState → WheelState

/-- `Model.step` (`model.py:311-343`).  In order: `curr_goal` is set, the
wheel accelerations are computed from the current state, `curr_control` is
set, `_append_history` runs, `dxdt` is computed and stored in `curr_dxdt`;
then, if any component of `dxdt` is NaN/Inf, `raise ValueError("Nans in
dxdt")` fires — modelled as `Except.error` carrying the mutated object —
otherwise `curr_x` receives the Euler update. -/
def Model.step (calc_dqdt : DqdtFn) (calc_wheels : WheelsFn) (dt : ℚ)
    (m : ModelState) (u : Ctrl) (curr_goal : Goal) : Except ModelState ModelState :=
  let m1 := { m with curr_goal := curr_goal,
                     curr_wheel_state := calc_wheels m.curr_x,
                     curr_control := u }
  let m2 := { m1 with history := append_history m1 }
  let dxdt := calc_dqdt m.curr_x u
  let m3 := { m2 with curr_dxdt := dxdt }
  if dxdtFinite dxdt then
    Except.ok { m3 with curr_x := eulerStep dt m.curr_x dxdt }
  else
    Except.error m3

/-- `predict_trajectory` as a method on the model object: the model
attributes are threaded through `_fake_step` and the loop exactly as read by
the source, which never assigns to them.  Returns the predicted states and
the model object after the call. -/
def predict_trajectoryM (calc_dqdt : DqdtFn) (dt : ℚ) (m : ModelState)
    (curr_x : SState) : List Ctrl → List SState × ModelState
  | [] => ([curr_x], m)
  | u :: rest =>
      let next_x := fake_step calc_dqdt dt curr_x u
      let (xs, m2) := predict_trajectoryM calc_dqdt dt m next_x rest
      (curr_x :: xs, m2)

/-- Run `Model.step` once per control, pairing each step with the head of
the remaining goal list (goals only enter the history, never the state).
Collects `curr_x` after each successful step; a raise aborts the run. -/
def Model.runSteps (calc_dqdt : DqdtFn) (calc_wheels : WheelsFn) (dt : ℚ)
    (m : ModelState) (goals : List Goal) : List Ctrl → List SState
  | [] => []
  | u :: rest =>
      match Model.step calc_dqdt calc_wheels dt m u (goals.headD default) with
      | Except.ok m2 => m2.curr_x :: Model.runSteps calc_dqdt calc_wheels dt m2 goals.tail rest
      | Except.error _ => []

/-! ## The cartesian dynamics `dqdt = g + M * inp`
(`Model.get_combined_dynamics_kinematics`, `model.py:148-196`), with the
trigonometric routines kept as parameters `c`/`s` (the numeric `cos`/`sin`). -/

/-- The physical parameters `self.mouse` (`config.py`). -/
structure Mouse where
  L : ℚ
  R : ℚ
  m : ℚ
  m_w : ℚ
  d : ℚ
deriving DecidableEq, Inhabited

/-- The constant `J = I + (2 * I ** 2 / R ** 2) * I_w` with
`I = I_c + m * d ** 2 + 2 * m_w * L ** 2 + I_w`, `I_c = m * d ** 2`,
`I_w = m_w * R ** 2` (`model.py:164-170`). -/
def Mouse.J (p : Mouse) : ℚ :=
  let I_c := p.m * p.d ^ 2
  let I_w := p.m_w * p.R ^ 2
  let I := I_c + p.m * p.d ^ 2 + 2 * p.m_w * p.L ^ 2 + I_w
  I + (2 * I ^ 2 / p.R ^ 2) * I_w

/-- A state with finite (rational) components. -/
structure QState where
  x : ℚ
  y : ℚ
  theta : ℚ
  v : ℚ
  omega : ℚ
deriving DecidableEq, Inhabited

/-- A control with finite components. -/
structure QCtrl where
  tau_r : ℚ
  tau_l : ℚ
deriving DecidableEq, Inhabited

/-- A derivative vector with finite components. -/
structure QDxdt where
  x_dot : ℚ
  y_dot : ℚ
  theta_dot : ℚ
  v_dot : ℚ
  omega_dot : ℚ
deriving DecidableEq, Inhabited

/-- The expression `g + M * inp` of `model.py:173-189` evaluated over ℚ:
`g = (0, 0, 0, d*omega^2, -(m*d*omega*v)/J)`, `inp = (v, omega, tau_r, tau_l)`
and `M` the 5×4 matrix of `model.py:177-185`. -/
def dqdtQ (p : Mouse) (c s : ℚ → ℚ) (x : QState) (u : QCtrl) : QDxdt where
  x_dot := c x.theta * x.v
  y_dot := s x.theta * x.v
  theta_dot := x.omega
  v_dot := p.d * x.omega ^ 2 + p.L / (p.m * p.R) * u.tau_r + p.L / (p.m * p.R) * u.tau_l
  omega_dot := -(p.m * p.d * x.omega * x.v) / p.J
      + p.L / (p.J * p.R) * u.tau_r - p.L / (p.J * p.R) * u.tau_l

/-- The same expression evaluated on possibly non-finite inputs, with the
non-finiteness propagation of the numeric kernel (`self.calc_dqdt`):
any NaN/Inf argument of a component's expression makes that component
non-finite. -/
def cartDqdt (p : Mouse) (c s : ℚ → ℚ) : DqdtFn := fun x u =>
  { x_dot := (x.theta.liftFn c).mul x.v
    y_dot := (x.theta.liftFn s).mul x.v
    theta_dot := x.omega
    v_dot := ((x.omega.mul x.omega).scale p.d).add
        ((u.tau_r.scale (p.L / (p.m * p.R))).add (u.tau_l.scale (p.L / (p.m * p.R))))
    omega_dot := ((((x.omega.mul x.v).scale (p.m * p.d)).divC p.J).neg).add
        ((u.tau_r.scale (p.L / (p.J * p.R))).add
          ((u.tau_l.scale (p.L / (p.J * p.R))).neg)) }

/-- The constant jacobian of the model with respect to the input
`(tau_r, tau_l)`, as computed symbolically by `Model.get_jacobians`
(`model.py:258-271`): only the `v_dot` and `omega_dot` rows are non-zero,
and none of its entries mentions the state. -/
def calc_model_jacobian_input (p : Mouse) : Fin 5 → Fin 2 → ℚ
  | 3, _ => p.L / (p.m * p.R)
  | 4, 0 => p.L / (p.J * p.R)
  | 4, 1 => -(p.L / (p.J * p.R))
  | _, _ => 0

/-- Apply the 5×2 input jacobian to a control difference. -/
def jacInputApply (p : Mouse) (du : QCtrl) : QDxdt where
  x_dot := calc_model_jacobian_input p 0 0 * du.tau_r
      + calc_model_jacobian_input p 0 1 * du.tau_l
  y_dot := calc_model_jacobian_input p 1 0 * du.tau_r
      + calc_model_jacobian_input p 1 1 * du.tau_l
  theta_dot := calc_model_jacobian_input p 2 0 * du.tau_r
      + calc_model_jacobian_input p 2 1 * du.tau_l
  v_dot := calc_model_jacobian_input p 3 0 * du.tau_r
      + calc_model_jacobian_input p 3 1 * du.tau_l
  omega_dot := calc_model_jacobian_input p 4 0 * du.tau_r
      + calc_model_jacobian_input p 4 1 * du.tau_l

/-- Componentwise difference of two derivative vectors. -/
def qdxdtSub (a b : QDxdt) : QDxdt where
  x_dot := a.x_dot - b.x_dot
  y_dot := a.y_dot - b.y_dot
  theta_dot := a.theta_dot - b.theta_dot
  v_dot := a.v_dot - b.v_dot
  omega_dot := a.omega_dot - b.omega_dot

/-- Componentwise difference of two controls. -/
def qctrlSub (a b : QCtrl) : QCtrl where
  tau_r := a.tau_r - b.tau_r
  tau_l := a.tau_l - b.tau_l

/-! ## The batched branch of `predict_trajectory` (`model.py:370-375, 390-392`)

A 3-d control array of shape `(B, pred_len, 2)` is modelled as a list of `B`
candidates, each a list of `pred_len` rows, each row a list of values.
`us.reshape((pred_len, -1))` flattens in C order and regroups into
`pred_len` rows of `total/pred_len` values each (numpy raises if `pred_len`
does not divide the total size); `self._control(*u)` in `_fake_step` raises
`TypeError` unless the row has exactly two values. -/

/-- One `_fake_step` fed a raw reshaped row: the `control` namedtuple
constructor accepts exactly two values. -/
def fake_step_row (calc_dqdt : DqdtFn) (dt : ℚ) (x : SState) :
    List EF → Except Unit SState
  | [a, b] => Except.ok (fake_step calc_dqdt dt x ⟨a, b⟩)
  | _ => Except.error ()

/-- The rollout loop of `predict_trajectory` over reshaped rows. -/
def rollout_rows (calc_dqdt : DqdtFn) (dt : ℚ) (x : SState) :
    List (List EF) → Except Unit (List SState)
  | [] => Except.ok [x]
  | row :: rest =>
      match fake_step_row calc_dqdt dt x row with
      | Except.ok nx => (rollout_rows calc_dqdt dt nx rest).map (x :: ·)
      | Except.error e => Except.error e

/-- `Model.predict_trajectory` on a 3-d control array: `pred_len :=
us.shape[1]`, reshape to `(pred_len, -1)`, run the rollout loop, and wrap
the result in one extra leading axis (`pred_xs[np.newaxis, :, :]`). -/
def predict_trajectoryB (calc_dqdt : DqdtFn) (dt : ℚ) (curr_x : SState)
    (us : List (List (List EF))) : Except Unit (List (List SState)) :=
  let pred_len := (us.headD []).length
  let flat := (us.map List.flatten).flatten
  if pred_len = 0 ∨ flat.length % pred_len ≠ 0 then Except.error ()
  else
    let rowLen := flat.length / pred_len
    let rows := (List.range pred_len).map (fun t => (flat.drop (t * rowLen)).take rowLen)
    (rollout_rows calc_dqdt dt curr_x rows).map (fun p => [p])

/-! ## `Environment.plan` (`environment.py:59-86`) -/

/-- One row of the goal trajectory array. -/
structure GoalRow where
  x : ℚ
  y : ℚ
  theta : ℚ
  v : ℚ
  s : ℚ
deriving DecidableEq, Inhabited

/-- Squared Euclidean distance from the current position to a goal row.
`np.argmin` is applied to `np.linalg.norm(...)`; since `Real.sqrt` is
strictly monotone on squared norms, the argmin over squared distances is
the same index, which keeps the embedding computable. -/
def sqDist (cx cy : ℚ) (g : GoalRow) : ℚ :=
  (cx - g.x) ^ 2 + (cy - g.y) ^ 2

/-- `np.argmin`: index of the first minimal element. -/
def argminIdx : List ℚ → Nat
  | [] => 0
  | [_] => 0
  | a :: b :: rest =>
      let j := argminIdx (b :: rest)
      if a ≤ (b :: rest).getD j 0 then 0 else j + 1

/-- `Environment.plan`: `pred_len := prediction_length + 1`; after warmup,
find the closest trajectory point, clip `start`/`end` at the trajectory
length, and return `g_traj[start:end]` when that window has exactly
`pred_len` rows, otherwise `np.tile(g_traj[-1], (pred_len, 1))`; during
warmup return `g_traj[0:pred_len]`. -/
def Environment.plan (n_ahead prediction_length warmup_length : Nat) (itern : Nat)
    (cx cy : ℚ) (g_traj : List GoalRow) : List GoalRow :=
  let pred_len := prediction_length + 1
  if warmup_length < itern then
    let min_idx := argminIdx (g_traj.map (sqDist cx cy))
    let start0 := min_idx + n_ahead
    let start := if g_traj.length < start0 then g_traj.length else start0
    let stop := if g_traj.length < start0 + pred_len then g_traj.length
                else start0 + pred_len
    if ((start : Int) - stop).natAbs ≠ pred_len then
      List.replicate pred_len (g_traj.getLastD default)
    else
      (g_traj.drop start).take (stop - start)
  else
    g_traj.take pred_len

/-- Modelled from the spec: the goal window "clipped/padded at trajectory
boundaries … padded by repeating the final goal" — the in-range part of
`g_traj[start : start+pred_len]` kept, followed by copies of the final goal
up to length `prediction_length + 1`.  Used only to compare the spec's
padding behaviour with `Environment.plan`. -/
def plan_padded_spec (n_ahead prediction_length warmup_length : Nat) (itern : Nat)
    (cx cy : ℚ) (g_traj : List GoalRow) : List GoalRow :=
  let pred_len := prediction_length + 1
  if warmup_length < itern then
    let min_idx := argminIdx (g_traj.map (sqDist cx cy))
    let start0 := min_idx + n_ahead
    let start := if g_traj.length < start0 then g_traj.length else start0
    let window := (g_traj.drop start).take pred_len
    window ++ List.replicate (pred_len - window.length) (g_traj.getLastD default)
  else
    g_traj.take pred_len

/-! ## `wrap_angle` (`utils.py:95-101`) -/

/-- `wrap_angle(angles) = (angles + np.pi) % (2 * np.pi) - np.pi`, with
numpy's floored modulo `a % b = a - b * floor(a / b)` (for `b > 0`). -/
noncomputable def wrap_angle (a : ℝ) : ℝ :=
  (a + Real.pi) - (2 * Real.pi) * ⌊(a + Real.pi) / (2 * Real.pi)⌋ - Real.pi

/-! ## Concrete fixtures used by witnesses and counterexamples -/

/-- A derivative routine that always returns a finite constant. -/
def dqZero : DqdtFn := fun _ _ => ⟨some 0, some 0, some 0, some 0, some 0⟩

/-- A derivative routine that always returns a non-finite vector. -/
def dqNaN : DqdtFn := fun _ _ => ⟨none, none, none, none, none⟩

/-- A finite concrete state. -/
def xFin : SState := ⟨some 0, some 0, some 0, some 0, some 0⟩

/-- A finite concrete control. -/
def uFin : Ctrl := ⟨some 0, some 0⟩

/-- A wheel routine returning finite constants. -/
def wheelsZero : WheelsFn := fun _ => ⟨some 0, some 0⟩

/-- A model object whose current state is finite. -/
def mFin : ModelState :=
  { curr_x := xFin, curr_goal := default, curr_control := default,
    curr_wheel_state := default, curr_dxdt := default,
    curr_traj_waypoint_idx := 0, history := default }

/-! ## Basic rollout lemmas -/

lemma predict_trajectory_length (dqdt : DqdtFn) (dt : ℚ) (x0 : SState)
    (us : List Ctrl) :
    (predict_trajectory dqdt dt x0 us).length = us.length + 1 := by
  induction us generalizing x0 with
  | nil => rfl
  | cons u rest ih => simp [predict_trajectory, ih]

lemma predict_trajectory_head (dqdt : DqdtFn) (dt : ℚ) (x0 : SState)
    (us : List Ctrl) :
    (predict_trajectory dqdt dt x0 us).getD 0 default = x0 := by
  cases us <;> rfl

lemma predict_trajectory_succ (dqdt : DqdtFn) (dt : ℚ) (x0 : SState)
    (us : List Ctrl) :
    ∀ t, t < us.length →
      (predict_trajectory dqdt dt x0 us).getD (t + 1) default
        = fake_step dqdt dt ((predict_trajectory dqdt dt x0 us).getD t default)
            (us.getD t default) := by
  induction us generalizing x0 with
  | nil => intro t ht; exact absurd ht (Nat.not_lt_zero t)
  | cons u rest ih =>
      intro t ht
      match t with
      | 0 =>
          show (predict_trajectory dqdt dt (fake_step dqdt dt x0 u) rest).getD 0 default
              = fake_step dqdt dt x0 u
          exact predict_trajectory_head ..
      | Nat.succ k =>
          have hk : k < rest.length := Nat.lt_of_succ_lt_succ ht
          show (predict_trajectory dqdt dt (fake_step dqdt dt x0 u) rest).getD (k + 1) default
              = fake_step dqdt dt
                  ((predict_trajectory dqdt dt (fake_step dqdt dt x0 u) rest).getD k default)
                  (rest.getD k default)
          exact ih (fake_step dqdt dt x0 u) k hk

/-- C3: `predict_trajectory` on an unbatched control sequence of length `n`
returns `n + 1` states; the first is `curr_x` and each next one is the
previous one advanced by one forward-Euler step
`state + dqdt(state, control) * dt`. -/
theorem predict_trajectory_is_euler_rollout (dqdt : DqdtFn) (dt : ℚ)
    (x0 : SState) (us : List Ctrl) :
    (predict_trajectory dqdt dt x0 us).length = us.length + 1 ∧
    (predict_trajectory dqdt dt x0 us).getD 0 default = x0 ∧
    ∀ t, t < us.length →
      (predict_trajectory dqdt dt x0 us).getD (t + 1) default
        = eulerStep dt ((predict_trajectory dqdt dt x0 us).getD t default)
            (dqdt ((predict_trajectory dqdt dt x0 us).getD t default)
              (us.getD t default)) :=
  ⟨predict_trajectory_length .., predict_trajectory_head ..,
    fun t ht => predict_trajectory_succ dqdt dt x0 us t ht⟩

/-- C3 witness: the theorem applied to a concrete one-step rollout. -/
theorem predict_trajectory_is_euler_rollout_witness :
    (0 : Nat) < [uFin].length ∧
    (predict_trajectory dqZero 1 xFin [uFin]).getD 1 default
      = eulerStep 1 ((predict_trajectory dqZero 1 xFin [uFin]).getD 0 default)
          (dqZero ((predict_trajectory dqZero 1 xFin [uFin]).getD 0 default)
            ([uFin].getD 0 default)) :=
  ⟨by decide, (predict_trajectory_is_euler_rollout dqZero 1 xFin [uFin]).2.2 0 (by decide)⟩

/-- C1 counterexample: a rollout from a finite initial state with a
derivative routine that returns NaN.  The intermediate state at index 1 is
non-finite, yet the returned sequence still has full length 3 and its last
entry is the Euler continuation of the corrupted state: the rollout is
neither abandoned nor truncated, and no infinite-cost signal exists in the
return value (`_fake_step` only prints; the `raise` at `model.py:358` is
commented out). -/
theorem rollout_not_abandoned_on_nan :
    stateFinite xFin = true ∧
    stateFinite ((predict_trajectory dqNaN 1 xFin [uFin, uFin]).getD 1 default) = false ∧
    (predict_trajectory dqNaN 1 xFin [uFin, uFin]).length = 3 ∧
    (predict_trajectory dqNaN 1 xFin [uFin, uFin]).getD 2 default
      = fake_step dqNaN 1
          ((predict_trajectory dqNaN 1 xFin [uFin, uFin]).getD 1 default) uFin := by
  refine ⟨by decide, ?_, ?_, ?_⟩ <;>
    simp [predict_trajectory, fake_step, eulerStep, dqNaN, xFin, uFin,
      stateFinite, EF.add, EF.scale, EF.finite]

/-- C1 amended: if an intermediate state of a rollout becomes non-finite,
`predict_trajectory` does not abandon the rollout: it still returns all
`n + 1` states, and the entry after the corrupted one is the ordinary
`_fake_step` continuation of the corrupted state (the non-finiteness check
in `_fake_step` only prints a warning; no cost is inflated here). -/
theorem rollout_continues_with_corrupted_state (dqdt : DqdtFn) (dt : ℚ)
    (x0 : SState) (us : List Ctrl) (t : Nat) (ht : t < us.length)
    (hbad : stateFinite ((predict_trajectory dqdt dt x0 us).getD t default) = false) :
    (predict_trajectory dqdt dt x0 us).length = us.length + 1 ∧
    (predict_trajectory dqdt dt x0 us).getD (t + 1) default
      = fake_step dqdt dt ((predict_trajectory dqdt dt x0 us).getD t default)
          (us.getD t default) :=
  ⟨predict_trajectory_length .., predict_trajectory_succ dqdt dt x0 us t ht⟩

/-- C1 amended witness: the corrupted intermediate state at index 1 of the
concrete NaN rollout is continued, not abandoned. -/
theorem rollout_continues_with_corrupted_state_witness :
    (predict_trajectory dqNaN 1 xFin [uFin, uFin]).length = 2 + 1 ∧
    (predict_trajectory dqNaN 1 xFin [uFin, uFin]).getD 2 default
      = fake_step dqNaN 1
          ((predict_trajectory dqNaN 1 xFin [uFin, uFin]).getD 1 default)
          ([uFin, uFin].getD 1 default) :=
  rollout_continues_with_corrupted_state dqNaN 1 xFin [uFin, uFin] 1 (by decide)
    (by simp [predict_trajectory, fake_step, eulerStep, dqNaN, xFin, uFin,
          stateFinite, EF.add, EF.scale, EF.finite])

/-- The model object is threaded unchanged through `predict_trajectory`:
the method reads but never assigns any attribute. -/
lemma predict_trajectoryM_eq (dqdt : DqdtFn) (dt : ℚ) (m : ModelState)
    (x0 : SState) (us : List Ctrl) :
    predict_trajectoryM dqdt dt m x0 us = (predict_trajectory dqdt dt x0 us, m) := by
  induction us generalizing x0 with
  | nil => rfl
  | cons u rest ih => simp [predict_trajectoryM, predict_trajectory, ih]

/-- C4: `predict_trajectory` leaves the model's persistent state unchanged:
the history log and the current real state `curr_x` are identical before
and after the call (rollouts never write to the history). -/
theorem predict_trajectory_pure (dqdt : DqdtFn) (dt : ℚ) (m : ModelState)
    (x0 : SState) (us : List Ctrl) :
    (predict_trajectoryM dqdt dt m x0 us).2.history = m.history ∧
    (predict_trajectoryM dqdt dt m x0 us).2.curr_x = m.curr_x := by
  rw [predict_trajectoryM_eq]; exact ⟨rfl, rfl⟩

/-! ## `Model.step` and the unrecoverable numeric error -/

lemma EF.add_scale_finite (dt : ℚ) (a b : EF) (ha : a.finite = true)
    (hb : b.finite = true) : (a.add (b.scale dt)).finite = true := by
  cases a <;> cases b <;> simp_all [EF.add, EF.scale, EF.finite]

/-- A finite state stays finite under an Euler step with a finite
derivative. -/
lemma eulerStep_finite (dt : ℚ) (x : SState) (d : Dxdt)
    (hx : stateFinite x = true) (hd : dxdtFinite d = true) :
    stateFinite (eulerStep dt x d) = true := by
  simp only [stateFinite, dxdtFinite, Bool.and_eq_true] at hx hd ⊢
  exact ⟨⟨⟨⟨EF.add_scale_finite dt _ _ hx.1.1.1.1 hd.1.1.1.1,
    EF.add_scale_finite dt _ _ hx.1.1.1.2 hd.1.1.1.2⟩,
    EF.add_scale_finite dt _ _ hx.1.1.2 hd.1.1.2⟩,
    EF.add_scale_finite dt _ _ hx.1.2 hd.1.2⟩,
    EF.add_scale_finite dt _ _ hx.2 hd.2⟩

/-- C5: starting from a finite current state, if the state that one
forward-Euler update would produce is non-finite, then `step` raises the
unrecoverable `ValueError("Nans in dxdt")` instead of continuing. -/
theorem step_raises_on_nonfinite (dqdt : DqdtFn) (wheels : WheelsFn) (dt : ℚ)
    (m : ModelState) (u : Ctrl) (g : Goal)
    (hfin : stateFinite m.curr_x = true)
    (hbad : stateFinite (eulerStep dt m.curr_x (dqdt m.curr_x u)) = false) :
    ∃ mf, Model.step dqdt wheels dt m u g = Except.error mf := by
  have hd : dxdtFinite (dqdt m.curr_x u) = false := by
    cases hdd : dxdtFinite (dqdt m.curr_x u) with
    | true => rw [eulerStep_finite dt m.curr_x _ hfin hdd] at hbad; cases hbad
    | false => rfl
  cases hs : Model.step dqdt wheels dt m u g with
  | ok m2 => exfalso; simp [Model.step, hd] at hs
  | error mf => exact ⟨mf, rfl⟩

/-- C5 witness: a concrete finite model state and a NaN-producing
derivative routine make `step` raise. -/
theorem step_raises_on_nonfinite_witness :
    ∃ mf, Model.step dqNaN wheelsZero 1 mFin uFin default = Except.error mf :=
  step_raises_on_nonfinite dqNaN wheelsZero 1 mFin uFin default (by decide)
    (by simp [eulerStep, dqNaN, mFin, xFin, stateFinite, EF.add, EF.scale, EF.finite])

/-- C10: when `step` raises its numeric error (`dxdt` non-finite), the
current real state `curr_x` is unchanged by the call — the raise happens
before the Euler update — but the history has already been appended with
exactly one entry per field logged by `_append_history` (the five state
components, the two controls, the two wheel accelerations, the five goal
components and the trajectory index), so a fatal step grows the history
although the state does not advance. -/
theorem step_raise_keeps_state_but_grows_history (dqdt : DqdtFn)
    (wheels : WheelsFn) (dt : ℚ) (m : ModelState) (u : Ctrl) (g : Goal)
    (hd : dxdtFinite (dqdt m.curr_x u) = false) :
    ∃ mf, Model.step dqdt wheels dt m u g = Except.error mf ∧
      mf.curr_x = m.curr_x ∧
      mf.history.x.length = m.history.x.length + 1 ∧
      mf.history.y.length = m.history.y.length + 1 ∧
      mf.history.theta.length = m.history.theta.length + 1 ∧
      mf.history.v.length = m.history.v.length + 1 ∧
      mf.history.omega.length = m.history.omega.length + 1 ∧
      mf.history.tau_r.length = m.history.tau_r.length + 1 ∧
      mf.history.tau_l.length = m.history.tau_l.length + 1 ∧
      mf.history.nudot_right.length = m.history.nudot_right.length + 1 ∧
      mf.history.nudot_left.length = m.history.nudot_left.length + 1 ∧
      mf.history.goal_x.length = m.history.goal_x.length + 1 ∧
      mf.history.goal_y.length = m.history.goal_y.length + 1 ∧
      mf.history.goal_theta.length = m.history.goal_theta.length + 1 ∧
      mf.history.goal_v.length = m.history.goal_v.length + 1 ∧
      mf.history.goal_omega.length = m.history.goal_omega.length + 1 ∧
      mf.history.trajectory_idx.length = m.history.trajectory_idx.length + 1 := by
  cases hs : Model.step dqdt wheels dt m u g with
  | ok m2 => exfalso; simp [Model.step, hd] at hs
  | error mf =>
      refine ⟨mf, rfl, ?_⟩
      simp only [Model.step, hd, Bool.false_eq_true, if_false, Except.error.injEq] at hs
      subst hs
      simp [append_history]

/-- C10 witness: the concrete fatal step leaves `curr_x` alone and grows
every logged history list by one. -/
theorem step_raise_keeps_state_but_grows_history_witness :
    ∃ mf, Model.step dqNaN wheelsZero 1 mFin uFin default = Except.error mf ∧
      mf.curr_x = mFin.curr_x ∧
      mf.history.x.length = mFin.history.x.length + 1 ∧
      mf.history.y.length = mFin.history.y.length + 1 ∧
      mf.history.theta.length = mFin.history.theta.length + 1 ∧
      mf.history.v.length = mFin.history.v.length + 1 ∧
      mf.history.omega.length = mFin.history.omega.length + 1 ∧
      mf.history.tau_r.length = mFin.history.tau_r.length + 1 ∧
      mf.history.tau_l.length = mFin.history.tau_l.length + 1 ∧
      mf.history.nudot_right.length = mFin.history.nudot_right.length + 1 ∧
      mf.history.nudot_left.length = mFin.history.nudot_left.length + 1 ∧
      mf.history.goal_x.length = mFin.history.goal_x.length + 1 ∧
      mf.history.goal_y.length = mFin.history.goal_y.length + 1 ∧
      mf.history.goal_theta.length = mFin.history.goal_theta.length + 1 ∧
      mf.history.goal_v.length = mFin.history.goal_v.length + 1 ∧
      mf.history.goal_omega.length = mFin.history.goal_omega.length + 1 ∧
      mf.history.trajectory_idx.length = mFin.history.trajectory_idx.length + 1 :=
  step_raise_keeps_state_but_grows_history dqNaN wheelsZero 1 mFin uFin default
    (by decide)

/-! ## Rollout/step equivalence on the cartesian dynamics -/

/-- On finite state and control, every component of the cartesian dynamics
is finite (exact rational arithmetic cannot produce NaN/Inf). -/
lemma cartDqdt_finite (p : Mouse) (c s : ℚ → ℚ) (x : SState) (u : Ctrl)
    (hx : stateFinite x = true) (hu : ctrlFinite u = true) :
    dxdtFinite (cartDqdt p c s x u) = true := by
  obtain ⟨x1, x2, x3, x4, x5⟩ := x
  obtain ⟨u1, u2⟩ := u
  simp only [stateFinite, ctrlFinite, Bool.and_eq_true] at hx hu
  obtain ⟨⟨⟨⟨h1, h2⟩, h3⟩, h4⟩, h5⟩ := hx
  obtain ⟨g1, g2⟩ := hu
  cases x1 <;> cases x2 <;> cases x3 <;> cases x4 <;> cases x5 <;>
    cases u1 <;> cases u2 <;>
    simp_all [cartDqdt, dxdtFinite, EF.finite, EF.add, EF.mul, EF.scale,
      EF.divC, EF.neg, EF.liftFn]

/-- C6: on a fresh model with finite initial state, stepping through a
finite control sequence with `Model.step` yields exactly the same `n + 1`
real states as one call to `predict_trajectory` with the same initial state
and controls; and `predict_trajectory` has no history side effects. -/
theorem step_sequence_equals_predict (p : Mouse) (c s : ℚ → ℚ)
    (wheels : WheelsFn) (dt : ℚ) (m : ModelState) (us : List Ctrl)
    (goals : List Goal)
    (hx : stateFinite m.curr_x = true)
    (hus : ∀ u ∈ us, ctrlFinite u = true) :
    m.curr_x :: Model.runSteps (cartDqdt p c s) wheels dt m goals us
      = predict_trajectory (cartDqdt p c s) dt m.curr_x us ∧
    ∀ m' : ModelState, (predict_trajectoryM (cartDqdt p c s) dt m' m.curr_x us).2 = m' := by
  constructor
  · induction us generalizing m goals with
    | nil => rfl
    | cons u rest ih =>
        have hu : ctrlFinite u = true := hus u (List.mem_cons_self ..)
        have hd : dxdtFinite (cartDqdt p c s m.curr_x u) = true :=
          cartDqdt_finite p c s m.curr_x u hx hu
        have hstep : Model.step (cartDqdt p c s) wheels dt m u (goals.headD default)
            = Except.ok { m with
                curr_goal := goals.headD default,
                curr_wheel_state := wheels m.curr_x,
                curr_control := u,
                history := append_history { m with
                  curr_goal := goals.headD default,
                  curr_wheel_state := wheels m.curr_x,
                  curr_control := u },
                curr_dxdt := cartDqdt p c s m.curr_x u,
                curr_x := eulerStep dt m.curr_x (cartDqdt p c s m.curr_x u) } := by
          simp [Model.step, hd]
        rw [Model.runSteps, hstep]
        have hx2 : stateFinite (eulerStep dt m.curr_x (cartDqdt p c s m.curr_x u)) = true :=
          eulerStep_finite dt m.curr_x _ hx hd
        have := ih { m with
            curr_goal := goals.headD default,
            curr_wheel_state := wheels m.curr_x,
            curr_control := u,
            history := append_history { m with
              curr_goal := goals.headD default,
              curr_wheel_state := wheels m.curr_x,
              curr_control := u },
            curr_dxdt := cartDqdt p c s m.curr_x u,
            curr_x := eulerStep dt m.curr_x (cartDqdt p c s m.curr_x u) }
          goals.tail hx2 (fun v hv => hus v (List.mem_cons_of_mem u hv))
        rw [predict_trajectory]
        exact congrArg (m.curr_x :: ·) this
  · intro m'
    rw [predict_trajectoryM_eq]

/-- C6 witness: concrete one-step run with finite data. -/
theorem step_sequence_equals_predict_witness :
    mFin.curr_x :: Model.runSteps (cartDqdt ⟨1, 1, 1, 1, 1⟩ (fun _ => 1) (fun _ => 0))
        wheelsZero 1 mFin [] [uFin]
      = predict_trajectory (cartDqdt ⟨1, 1, 1, 1, 1⟩ (fun _ => 1) (fun _ => 0)) 1
          mFin.curr_x [uFin] ∧
    ∀ m' : ModelState,
      (predict_trajectoryM (cartDqdt ⟨1, 1, 1, 1, 1⟩ (fun _ => 1) (fun _ => 0)) 1 m'
        mFin.curr_x [uFin]).2 = m' :=
  step_sequence_equals_predict ⟨1, 1, 1, 1, 1⟩ (fun _ => 1) (fun _ => 0)
    wheelsZero 1 mFin [uFin] [] (by decide) (by decide)

/-! ## The constant control jacobian -/

/-- C9: for fixed physical parameters the jacobian of the dynamics with
respect to control is the constant matrix `calc_model_jacobian_input`,
independent of the state (it takes no state argument), and the dynamics is
control-affine: `dqdt(x, u1) - dqdt(x, u2)` equals that matrix applied to
`u1 - u2`, for every state and pair of controls. -/
theorem jacobian_input_constant (p : Mouse) (c s : ℚ → ℚ) (x : QState)
    (u1 u2 : QCtrl) :
    qdxdtSub (dqdtQ p c s x u1) (dqdtQ p c s x u2)
      = jacInputApply p (qctrlSub u1 u2) := by
  simp only [qdxdtSub, dqdtQ, jacInputApply, qctrlSub, calc_model_jacobian_input,
    QDxdt.mk.injEq]
  refine ⟨by ring, by ring, by ring, by ring, by ring⟩

/-! ## The batched rollout accepts only a single candidate -/

/-- A reshaped row of exactly two values, as consumed by
`self._control(*u)`. -/
def row_to_control (r : List EF) : Ctrl := ⟨r.getD 0 none, r.getD 1 none⟩

lemma rollout_rows_pairs (dqdt : DqdtFn) (dt : ℚ) (x : SState)
    (rows : List (List EF)) (h2 : ∀ r ∈ rows, r.length = 2) :
    rollout_rows dqdt dt x rows
      = Except.ok (predict_trajectory dqdt dt x (rows.map row_to_control)) := by
  induction rows generalizing x with
  | nil => rfl
  | cons r rest ih =>
      obtain ⟨a, b, rfl⟩ := List.length_eq_two.mp (h2 r (List.mem_cons_self ..))
      have hrest := ih (fake_step dqdt dt x ⟨a, b⟩)
        (fun r hr => h2 r (List.mem_cons_of_mem _ hr))
      simp [rollout_rows, fake_step_row, hrest, row_to_control, predict_trajectory,
        Except.map]

lemma flatten_length_pairs (rows : List (List EF))
    (h2 : ∀ r ∈ rows, r.length = 2) : rows.flatten.length = rows.length * 2 := by
  induction rows with
  | nil => rfl
  | cons r rest ih =>
      have hr := h2 r (List.mem_cons_self ..)
      simp [List.flatten_cons, hr, ih (fun r hr => h2 r (List.mem_cons_of_mem _ hr)),
        Nat.succ_mul, Nat.add_comm]

lemma chunks_flatten_pairs (rows : List (List EF))
    (h2 : ∀ r ∈ rows, r.length = 2) :
    (List.range rows.length).map (fun t => ((rows.flatten).drop (t * 2)).take 2)
      = rows := by
  induction rows with
  | nil => rfl
  | cons r rest ih =>
      have hr := h2 r (List.mem_cons_self ..)
      rw [List.length_cons, List.range_succ_eq_map, List.map_cons, List.map_map]
      have h0 : ((r :: rest).flatten.drop (0 * 2)).take 2 = r := by
        rw [List.flatten_cons, Nat.zero_mul, List.drop_zero, ← hr, List.take_left]
      rw [h0]
      have hsucc : ∀ t : Nat,
          (((r :: rest).flatten).drop (Nat.succ t * 2)).take 2
            = ((rest.flatten).drop (t * 2)).take 2 := by
        intro t
        have hidx : Nat.succ t * 2 = r.length + t * 2 := by rw [hr]; omega
        rw [List.flatten_cons, hidx, List.drop_append]
      have hmap : (List.range rest.length).map
            ((fun t => (((r :: rest).flatten).drop (t * 2)).take 2) ∘ Nat.succ)
          = (List.range rest.length).map (fun t => ((rest.flatten).drop (t * 2)).take 2) :=
        List.map_congr_left (fun t _ => hsucc t)
      rw [hmap, ih (fun r hr => h2 r (List.mem_cons_of_mem _ hr))]

/-- C2 amended: the batched form works exactly for batch size 1.  A 3-d
control array `[us]` with one candidate of rows of length 2 is accepted,
and the result carries the one-element leading batch dimension with the
rollout of that candidate. -/
theorem predict_trajectoryB_single_batch (dqdt : DqdtFn) (dt : ℚ) (x : SState)
    (us3 : List (List EF)) (h2 : ∀ r ∈ us3, r.length = 2) (hne : us3 ≠ []) :
    predict_trajectoryB dqdt dt x [us3]
      = Except.ok [predict_trajectory dqdt dt x (us3.map row_to_control)] := by
  have hn : us3.length ≠ 0 := fun h => hne (List.length_eq_zero.mp h)
  have hlen : us3.flatten.length = us3.length * 2 := flatten_length_pairs us3 h2
  have hmod : us3.flatten.length % us3.length = 0 := by
    rw [hlen]; exact Nat.mul_mod_right ..
  have hdiv : us3.flatten.length / us3.length = 2 := by
    rw [hlen]; exact Nat.mul_div_cancel_left 2 (Nat.pos_of_ne_zero hn)
  have e1 : ([us3].map List.flatten).flatten = us3.flatten := by simp
  simp only [predict_trajectoryB, e1, List.headD_cons]
  rw [if_neg (not_or.mpr ⟨hn, not_not.mpr hmod⟩), hdiv, chunks_flatten_pairs us3 h2,
    rollout_rows_pairs dqdt dt x us3 h2]
  rfl

/-- C2 amended witness: a concrete single-candidate batched call. -/
theorem predict_trajectoryB_single_batch_witness :
    (∀ r ∈ [[(some 0 : EF), some 0]], r.length = 2) ∧
    predict_trajectoryB dqZero 1 xFin [[[(some 0 : EF), some 0]]]
      = Except.ok [predict_trajectory dqZero 1 xFin
          ([[(some 0 : EF), some 0]].map row_to_control)] :=
  ⟨by decide,
    predict_trajectoryB_single_batch dqZero 1 xFin [[(some 0 : EF), some 0]]
      (by decide) (by decide)⟩

/-- A batched control array with two candidates, shape `(2, 1, 2)`. -/
def ussTwo : List (List (List EF)) := [[[some 1, some 2]], [[some 3, some 4]]]

/-- C2 counterexample: with batch size `B = 2` the reshape
`us.reshape((pred_len, -1))` mixes the two candidates into rows of four
values, and `self._control(*u)` inside `_fake_step` raises `TypeError`
(modelled `Except.error`): `predict_trajectory` does not return predictions
with leading batch dimension 2. -/
theorem predict_trajectoryB_two_candidates_error :
    predict_trajectoryB dqZero 1 xFin ussTwo = Except.error () := by
  rfl

/-! ## `wrap_angle` wraps into `[-pi, pi)`, not `(-pi, pi]` -/

/-- C7 counterexample: an angle difference of exactly `π` wraps to `-π`
(`(π + π) % (2π) = 0`), which lies outside the claimed interval
`(-π, π]`. -/
theorem wrap_angle_pi_is_neg_pi :
    wrap_angle Real.pi = -Real.pi ∧
    wrap_angle Real.pi ∉ Set.Ioc (-Real.pi) Real.pi := by
  have h2pi : (2 : ℝ) * Real.pi ≠ 0 := by positivity
  have hdiv : (Real.pi + Real.pi) / (2 * Real.pi) = 1 := by
    rw [← two_mul]; exact div_self h2pi
  have heq : wrap_angle Real.pi = -Real.pi := by
    rw [wrap_angle, hdiv, Int.floor_one]
    push_cast
    ring
  refine ⟨heq, ?_⟩
  rw [heq]
  simp [Set.mem_Ioc]

/-- C7 amended: `wrap_angle` returns the unique representative of its
argument modulo `2π` in the half-open interval `[-π, π)` (so a difference
of exactly `π` comes back as `-π`). -/
theorem wrap_angle_mem_Ico_and_congruent (a : ℝ) :
    wrap_angle a ∈ Set.Ico (-Real.pi) Real.pi ∧
    ∃ k : ℤ, a - wrap_angle a = 2 * Real.pi * k := by
  have hpos : (0 : ℝ) < 2 * Real.pi := by positivity
  have h2pi : (2 : ℝ) * Real.pi ≠ 0 := ne_of_gt hpos
  set y : ℝ := (a + Real.pi) / (2 * Real.pi) with hy
  have hprod : 2 * Real.pi * y = a + Real.pi := mul_div_cancel₀ _ h2pi
  have hfract : wrap_angle a = 2 * Real.pi * Int.fract y - Real.pi := by
    rw [wrap_angle, ← hy, Int.fract]
    rw [mul_sub, hprod]
  constructor
  · rw [hfract]
    constructor
    · have h0 : (0 : ℝ) ≤ 2 * Real.pi * Int.fract y :=
        mul_nonneg (le_of_lt hpos) (Int.fract_nonneg y)
      linarith
    · have h1 : 2 * Real.pi * Int.fract y < 2 * Real.pi * 1 :=
        mul_lt_mul_of_pos_left (Int.fract_lt_one y) hpos
      linarith
  · refine ⟨⌊y⌋, ?_⟩
    rw [wrap_angle, ← hy]
    ring

/-! ## `Environment.plan` always returns `prediction_length + 1` goals -/

lemma argminIdx_lt_length (l : List ℚ) (h : l ≠ []) : argminIdx l < l.length := by
  induction l with
  | nil => exact absurd rfl h
  | cons a tl ih =>
      cases tl with
      | nil => simp [argminIdx]
      | cons b rest =>
          simp only [argminIdx]
          by_cases hle : a ≤ (b :: rest).getD (argminIdx (b :: rest)) 0
          · rw [if_pos hle]; simp
          · rw [if_neg hle]
            have := ih (List.cons_ne_nil b rest)
            simpa using Nat.succ_lt_succ this

/-- C8 amended: for a trajectory with at least `prediction_length + 1`
goals, `plan` always returns exactly `prediction_length + 1` goal rows; when
the lookahead window would extend past the trajectory end, the returned
window consists of `prediction_length + 1` copies of the trajectory's final
goal (`np.tile(g_traj[-1], ...)` — the in-range part of the window is
discarded, not kept and padded).  The controller never receives a short
window. -/
theorem plan_returns_full_window (n_ahead prediction_length warmup_length itern : Nat)
    (cx cy : ℚ) (g_traj : List GoalRow)
    (hlen : prediction_length + 1 ≤ g_traj.length) :
    (Environment.plan n_ahead prediction_length warmup_length itern cx cy g_traj).length
      = prediction_length + 1 ∧
    (warmup_length < itern →
      g_traj.length
        < argminIdx (g_traj.map (sqDist cx cy)) + n_ahead + (prediction_length + 1) →
      Environment.plan n_ahead prediction_length warmup_length itern cx cy g_traj
        = List.replicate (prediction_length + 1) (g_traj.getLastD default)) := by
  set mi := argminIdx (g_traj.map (sqDist cx cy)) with hmi
  constructor
  · simp only [Environment.plan, ← hmi]
    split_ifs <;>
      simp only [List.length_replicate, List.length_take, List.length_drop] <;>
      omega
  · intro hw hover
    simp only [Environment.plan, if_pos hw, ← hmi]
    split_ifs <;> first | rfl | (exfalso; omega)

/-- The concrete goal trajectory used for the C8 instances: four distinct
rows. -/
def trajRows : List GoalRow :=
  [⟨0, 0, 0, 0, 0⟩, ⟨1, 0, 0, 0, 0⟩, ⟨2, 0, 0, 0, 0⟩, ⟨3, 0, 0, 0, 0⟩]

/-- C8 amended witness: the theorem applied at a concrete trajectory and
query state whose lookahead window overruns the trajectory end. -/
theorem plan_returns_full_window_witness :
    (Environment.plan 0 2 0 1 2 0 trajRows).length = 2 + 1 ∧
    (0 < 1 →
      trajRows.length < argminIdx (trajRows.map (sqDist 2 0)) + 0 + (2 + 1) →
      Environment.plan 0 2 0 1 2 0 trajRows
        = List.replicate (2 + 1) (trajRows.getLastD default)) :=
  plan_returns_full_window 0 2 0 1 2 0 trajRows (by decide)

/-- C8 counterexample: near the trajectory end the code returns
`prediction_length + 1` copies of the final goal, not the remaining partial
window padded with the final goal: at this input the true window is
`[C, D]` and the spec's padding gives `[C, D, D]`, while `plan` returns
`[D, D, D]`. -/
theorem plan_differs_from_padded_window :
    Environment.plan 0 2 0 1 2 0 trajRows
      = List.replicate 3 (⟨3, 0, 0, 0, 0⟩ : GoalRow) ∧
    plan_padded_spec 0 2 0 1 2 0 trajRows
      = [⟨2, 0, 0, 0, 0⟩, ⟨3, 0, 0, 0, 0⟩, ⟨3, 0, 0, 0, 0⟩] ∧
    Environment.plan 0 2 0 1 2 0 trajRows
      ≠ plan_padded_spec 0 2 0 1 2 0 trajRows := by
  have hmap : trajRows.map (sqDist 2 0) = [4, 1, 0, 1] := by
    norm_num [trajRows, sqDist]
  have hargmin : argminIdx ([4, 1, 0, 1] : List ℚ) = 2 := by
    norm_num [argminIdx, List.getD]
  have h1 : Environment.plan 0 2 0 1 2 0 trajRows
      = List.replicate 3 (⟨3, 0, 0, 0, 0⟩ : GoalRow) := by
    simp only [Environment.plan, hmap, hargmin]
    norm_num [trajRows]
  have h2 : plan_padded_spec 0 2 0 1 2 0 trajRows
      = [⟨2, 0, 0, 0, 0⟩, ⟨3, 0, 0, 0, 0⟩, ⟨3, 0, 0, 0, 0⟩] := by
    simp only [plan_padded_spec, hmap, hargmin]
    norm_num [trajRows]
  refine ⟨h1, h2, ?_⟩
  rw [h1, h2]
  decide
